import Mathlib

/-!
Verification of the dbt-model-diff core (diff engine): a shallow embedding of
the pure SQL-building helpers (`quote_ident`, `build_row_hash_expr`,
`sanitize_ident`, `pct` from `dbt_model_diff/adapters/redshift.py`,
`dbt_model_diff/cli.py` and `dbt_model_diff/core/util.py`) and of the
comparison phase of `run_diff` (`dbt_model_diff/core/diff_flow.py`), together
with theorems settling the specification's claims about them.
-/

set_option autoImplicit false

namespace DbtModelDiff

/-! ### Python-string primitives

Python's `sep.join(parts)` and single-character `str.replace` are translated
at the character-list level. -/

/-- Python `sep.join(parts)`: interleaves `sep` between the parts, empty
string for an empty list. -/
def pyJoin (sep : String) : List String → String
  | [] => ""
  | [x] => x
  | x :: y :: xs => x ++ sep ++ pyJoin sep (y :: xs)

/-- Python `s.replace(CHR(34), CHR(34)*2)` at the character level: every
double-quote character is doubled, all other characters pass through. -/
def escapeQuotes : List Char → List Char
  | [] => []
  | c :: cs => if c = '"' then '"' :: '"' :: escapeQuotes cs else c :: escapeQuotes cs

/-! ### quote_ident

`RedshiftAdapter.quote_ident` (redshift.py lines 35-37) and the identical
`quote_ident` in cli.py lines 46-47. -/

/-- `quote_ident(ident)` from the source: the identifier with every embedded
double quote doubled, wrapped in double quotes. -/
def quote_ident (ident : String) : String :=
  "\"" ++ String.mk (escapeQuotes ident.data) ++ "\""

/-- Inverse of `escapeQuotes`: collapses each doubled double-quote back to a
single one. -/
def unescapeQuotes : List Char → List Char
  | [] => []
  | [c] => [c]
  | c :: d :: cs =>
    if c = '"' ∧ d = '"' then '"' :: unescapeQuotes cs
    else c :: unescapeQuotes (d :: cs)

/-- Recovery function for quoted identifiers: strips one leading and one
trailing double quote and undoes the quote doubling; `none` when the input is
not of that shape. -/
def recoverIdent (s : String) : Option String :=
  match s.data with
  | '"' :: rest =>
    if rest.getLast? = some '"' then some (String.mk (unescapeQuotes rest.dropLast))
    else none
  | _ => none

/-- In a list of characters, every double quote is immediately part of an
adjacent pair: scanning left to right never meets an isolated double quote. -/
def pairedQuotes : List Char → Bool
  | [] => true
  | [c] => c ≠ '"'
  | c :: d :: cs =>
    if c = '"' then decide (d = '"') && pairedQuotes cs
    else pairedQuotes (d :: cs)

/-! ### build_row_hash_expr

`RedshiftAdapter.build_row_hash_expr` (redshift.py lines 114-122, cast
`::varchar`) and `build_row_hash_expr` in cli.py lines 181-186 (cast
`::text`). -/

/-- Redshift row-hash SQL expression builder, translated from
redshift.py lines 114-122. -/
def build_row_hash_expr (cols : List String) : String :=
  if cols.isEmpty then "md5('')"
  else
    "md5(" ++
      pyJoin " || '|' || "
        (cols.map fun c => "coalesce(" ++ quote_ident c ++ "::varchar,'<NULL>')") ++
      ")"

/-- Postgres row-hash SQL expression builder, translated from
cli.py lines 181-186 (only the cast differs from the Redshift one). -/
def build_row_hash_expr_pg (cols : List String) : String :=
  if cols.isEmpty then "md5('')"
  else
    "md5(" ++
      pyJoin " || '|' || "
        (cols.map fun c => "coalesce(" ++ quote_ident c ++ "::text,'<NULL>')") ++
      ")"

/-- Spec-side NULL-safe value expression: one column value coalesced to the
fixed sentinel text before concatenation, with a dialect-chosen cast. -/
def specNullSafeValue (cast : String) (c : String) : String :=
  "coalesce(" ++ quote_ident c ++ cast ++ ",'<NULL>')"

/-- Spec-side delimiter join: the values separated by the delimiter bar, the
empty list giving the empty SQL string literal. -/
def specDelimJoin : List String → String
  | [] => "''"
  | [p] => p
  | p :: q :: ps => p ++ " || '|' || " ++ specDelimJoin (q :: ps)

/-- Spec-side row-hash expression, written from the specification's words:
coalesce each column value to the NULL sentinel, join with the delimiter in
column order, and hash the result (empty column list hashes the empty
string). -/
def specRowHashExpr (cast : String) (cols : List String) : String :=
  "md5(" ++ specDelimJoin (cols.map (specNullSafeValue cast)) ++ ")"

/-! ### sanitize_ident

`sanitize_ident` from core/util.py lines 8-32: replace every maximal run of
characters outside `[a-zA-Z0-9_]` by one underscore, lowercase, truncate to
`max_len` (default 60). -/

/-- A character allowed by the regex class `[a-zA-Z0-9_]`. -/
def isIdentChar (c : Char) : Bool :=
  c.isAlphanum || c = '_'

/-- Worker for `squashRuns`: the flag records whether the scan is currently
inside a run of non-identifier characters (whose first character has already
produced the replacement underscore). -/
def squashRunsAux : Bool → List Char → List Char
  | _, [] => []
  | inRun, c :: cs =>
    if isIdentChar c then c :: squashRunsAux false cs
    else if inRun then squashRunsAux true cs
    else '_' :: squashRunsAux true cs

/-- Python `re.sub` of the pattern "one or more non-identifier characters"
with a single underscore: each maximal run of non-identifier characters is
collapsed to one underscore. -/
def squashRuns (l : List Char) : List Char :=
  squashRunsAux false l

/-- `sanitize_ident(value, max_len=60)` from core/util.py. -/
def sanitize_ident (value : String) (maxLen : Nat := 60) : String :=
  String.mk (((squashRuns value.data).map Char.toLower).take maxLen)

/-- The disposable diff schema name derived in `run_diff`
(diff_flow.py lines 68-69). -/
def diffSchemaName (model baseRef headRef : String) : String :=
  "dbt_model_diff__" ++ sanitize_ident (model ++ "_" ++ baseRef ++ "_" ++ headRef)

/-- A character `sanitize_ident` maps to itself and that cannot merge with
a component boundary: an identifier character that is already lowercase and
is not the underscore. -/
def plainChar (c : Char) : Bool :=
  isIdentChar c && c.toLower == c && c != '_'

/-! ### pct

`pct` from core/util.py lines 35-37, modelled over the rationals (the Python
source computes in IEEE floats; the claim is stated up to floating
rounding, so the exact-rational model is the intended semantics). -/

/-- `pct(n, d)` from core/util.py: `0.0` when the denominator is zero,
otherwise `(n / d) * 100.0`. -/
def pct (n d : ℤ) : ℚ :=
  if d = 0 then 0 else ((n : ℚ) / (d : ℚ)) * 100

/-! ### The comparison phase of run_diff

`run_diff` (diff_flow.py lines 137-257): schema diff, row-level diff and
changed-key sampling. Snapshot tables are modelled as lists of rows; a row
maps column names to an optional string value (`none` is SQL NULL; values
are the string coercions the generated SQL produces via the cast). The
added/removed/changed/sample SQL queries are modelled by their standard SQL
semantics; the digest function (`md5` in both dialects) is an arbitrary
parameter, since nothing in the flow depends on more than it being a
function of the hash input string. -/

/-- One snapshot row: an association of column name to value,
`none` standing for SQL NULL. -/
abbrev Row := List (String × Option String)

/-- The value of column `c` in row `r` (NULL when the column is absent). -/
def getCol (r : Row) (c : String) : Option String :=
  match r.lookup c with
  | some v => v
  | none => none

/-- SQL equi-join match over the key columns (`b.k = h.k` for every key
`k`): true only when both sides are non-NULL and equal, because SQL
equality with a NULL operand is not true. -/
def sqlKeyMatch (keys : List String) (rb rh : Row) : Bool :=
  keys.all fun k =>
    match getCol rb k, getCol rh k with
    | some x, some y => x == y
    | _, _ => false

/-- The hash-input string the generated row-hash expression computes on a
row: each column value coalesced to the NULL sentinel, joined with the bar
delimiter in column order. -/
def hashInput (cols : List String) (r : Row) : String :=
  pyJoin "|" (cols.map fun c => (getCol r c).getD "<NULL>")

/-- Semantics of the `added` query (diff_flow.py lines 189-197): head rows
whose key tuple matches no base row. -/
def addedCount (baseRows headRows : List Row) (keys : List String) : Nat :=
  headRows.countP fun rh => !(baseRows.any fun rb => sqlKeyMatch keys rb rh)

/-- Semantics of the `removed` query (diff_flow.py lines 198-206): base rows
whose key tuple matches no head row. -/
def removedCount (baseRows headRows : List Row) (keys : List String) : Nat :=
  baseRows.countP fun rb => !(headRows.any fun rh => sqlKeyMatch keys rb rh)

/-- Semantics of the join underlying the `changed` query
(diff_flow.py lines 207-225): all key-matching base/head row pairs whose
row hashes (digest of the hash input over the non-key common columns)
differ. The join is many-to-many when keys are not unique. -/
def changedPairs (digest : String → String) (baseRows headRows : List Row)
    (keys nonKey : List String) : List (Row × Row) :=
  baseRows.flatMap fun rb =>
    headRows.filterMap fun rh =>
      if sqlKeyMatch keys rb rh ∧
          digest (hashInput nonKey rb) ≠ digest (hashInput nonKey rh)
      then some (rb, rh) else none

/-- Semantics of the `changed` query: the number of key-matching pairs with
differing row hashes. -/
def changedCount (digest : String → String) (baseRows headRows : List Row)
    (keys nonKey : List String) : Nat :=
  (changedPairs digest baseRows headRows keys nonKey).length

/-- Semantics of the sampling query body (before its LIMIT): the base-side
key tuples of the changed pairs. -/
def changedKeyTuples (digest : String → String) (baseRows headRows : List Row)
    (keys nonKey : List String) : List (List (Option String)) :=
  (changedPairs digest baseRows headRows keys nonKey).map fun p => keys.map (getCol p.1)

/-- The warehouse queries the row-diff stage of `run_diff` issues, by shape
and parameters. -/
inductive Query where
  | rowDiffAdded (keys : List String)
  | rowDiffRemoved (keys : List String)
  | rowDiffChanged (keys nonKey : List String)
  | rowDiffSample (keys nonKey : List String) (lim : ℤ)
deriving DecidableEq, Repr

/-- Whether a sampling query occurs among the issued queries. -/
def hasSamplingQuery (qs : List Query) : Bool :=
  qs.any fun q =>
    match q with
    | Query.rowDiffSample _ _ _ => true
    | _ => false

/-- The `row_diff` entry of the result dict built by `run_diff`. -/
structure RowDiffResult where
  added : Nat
  removed : Nat
  changed : Nat
  sample_keys : List (List (Option String))
deriving DecidableEq, Repr

/-- The comparison-phase portion of the result dict built by `run_diff`,
plus the row-diff queries issued along the way. -/
structure CompareResult where
  common : List String
  only_in_head : List String
  only_in_base : List String
  row_diff : Option RowDiffResult
  queries : List Query
deriving DecidableEq, Repr

/-- `common_cols` from diff_flow.py line 142: members of `head_cols` also in
`base_cols`, in head order. -/
def schemaCommon (base_cols head_cols : List String) : List String :=
  head_cols.filter fun c => base_cols.contains c

/-- `only_in_head` from diff_flow.py line 143. -/
def schemaOnlyHead (base_cols head_cols : List String) : List String :=
  head_cols.filter fun c => !base_cols.contains c

/-- `only_in_base` from diff_flow.py line 144. -/
def schemaOnlyBase (base_cols head_cols : List String) : List String :=
  base_cols.filter fun c => !head_cols.contains c

/-- `non_key_cols` from diff_flow.py line 181. -/
def nonKeyCols (common keys : List String) : List String :=
  common.filter fun c => !keys.contains c

/-- The comparison phase of `run_diff` (diff_flow.py lines 137-257): schema
diff, then — only when key columns were supplied — the row-level diff with
its added/removed/changed queries and the short-circuited sampling query. -/
def runDiffCompare (digest : String → String) (base_cols head_cols : List String)
    (baseRows headRows : List Row) (key_cols : List String) (sample : ℤ) :
    CompareResult :=
  if key_cols = [] then
    { common := schemaCommon base_cols head_cols
      only_in_head := schemaOnlyHead base_cols head_cols
      only_in_base := schemaOnlyBase base_cols head_cols
      row_diff := none
      queries := [] }
  else
    { common := schemaCommon base_cols head_cols
      only_in_head := schemaOnlyHead base_cols head_cols
      only_in_base := schemaOnlyBase base_cols head_cols
      row_diff := some
        { added := addedCount baseRows headRows key_cols
          removed := removedCount baseRows headRows key_cols
          changed := changedCount digest baseRows headRows key_cols
            (nonKeyCols (schemaCommon base_cols head_cols) key_cols)
          sample_keys :=
            if changedCount digest baseRows headRows key_cols
                (nonKeyCols (schemaCommon base_cols head_cols) key_cols) ≠ 0 ∧
                0 < sample then
              (changedKeyTuples digest baseRows headRows key_cols
                (nonKeyCols (schemaCommon base_cols head_cols) key_cols)).take
                sample.toNat
            else [] }
      queries :=
        [Query.rowDiffAdded key_cols, Query.rowDiffRemoved key_cols,
         Query.rowDiffChanged key_cols
           (nonKeyCols (schemaCommon base_cols head_cols) key_cols)] ++
        (if changedCount digest baseRows headRows key_cols
            (nonKeyCols (schemaCommon base_cols head_cols) key_cols) ≠ 0 ∧
            0 < sample then
          [Query.rowDiffSample key_cols
            (nonKeyCols (schemaCommon base_cols head_cols) key_cols) sample]
        else []) }

/-! ### The cleanup block of run_diff

The `finally:` block of `run_diff` (diff_flow.py lines 259-277). The try
body's result is an abstract outcome (a value returned, or an error
propagating); each cleanup step is a step that may raise, and is marked
with whether the source wraps it so that a raise cannot escape (the two
worktree removals and the schema drop sit in `try/except: pass`; the temp
directory removal uses `ignore_errors=True` and the psycopg2 `close()` do
not raise, so they carry a `false` raise flag). -/

/-- The cleanup steps of the `finally:` block, in source order. -/
inductive CleanupAction where
  | removeWtBase
  | removeWtHead
  | removeTmpDir
  | dropSchema
  | closeConn
deriving DecidableEq, Repr

/-- Outcome of `run_diff`: a returned result, an error raised by the try
body, or an error escaping from the cleanup block itself. -/
inductive Outcome (α : Type) where
  | ok (a : α)
  | err (msg : String)
  | cleanupErr (act : CleanupAction)

/-- Runs a list of cleanup steps `(action, guarded, raises)`: a raising
step that is not guarded by `try/except: pass` escapes immediately
(skipping the rest); otherwise the step is attempted and execution
continues. Returns the attempted actions and the escaping step, if any. -/
def execFinally : List (CleanupAction × Bool × Bool) →
    List CleanupAction × Option CleanupAction
  | [] => ([], none)
  | (a, guarded, raises) :: rest =>
    if raises && !guarded then ([a], some a)
    else
      let p := execFinally rest
      (a :: p.1, p.2)

/-- The `finally:` block of `run_diff` (diff_flow.py lines 259-277): the
worktree removals and the schema drop are wrapped in `try/except: pass`;
the temp-dir removal ignores errors; the schema drop runs only when
`keep_schemas` is false; the connection close ends the block. -/
def cleanupSteps (keep_schemas fWtBase fWtHead fDrop : Bool) :
    List (CleanupAction × Bool × Bool) :=
  [(CleanupAction.removeWtBase, true, fWtBase),
   (CleanupAction.removeWtHead, true, fWtHead),
   (CleanupAction.removeTmpDir, true, false)] ++
  (if keep_schemas then [] else [(CleanupAction.dropSchema, true, fDrop)]) ++
  [(CleanupAction.closeConn, false, false)]

/-- Every exit of `run_diff`: the try body's outcome followed by the
`finally:` block, whose escaping error (were there one) would replace the
body's outcome. -/
def runDiffExit {α : Type} (body : Outcome α)
    (keep_schemas fWtBase fWtHead fDrop : Bool) :
    Outcome α × List CleanupAction :=
  let p := execFinally (cleanupSteps keep_schemas fWtBase fWtHead fDrop)
  (match p.2 with
   | some a => Outcome.cleanupErr a
   | none => body, p.1)

/-! ### scalar

`RedshiftAdapter.scalar` (redshift.py lines 79-83) and `run_scalar`
(cli.py lines 189-193): the fetched first row is `none` when the query
yields no row, otherwise the list of its column values with NULLs as
`none`. -/

/-- `scalar(sql)` applied to the fetched first row: `int(row[0])` when a
row exists and its first column is non-NULL, else 0. -/
def scalar (fetched : Option (List (Option ℤ))) : ℤ :=
  match fetched with
  | some (some v :: _) => v
  | _ => 0

end DbtModelDiff

namespace DbtModelDiff

/-! ## Supporting lemmas -/

lemma escapeQuotes_cons (c : Char) (cs : List Char) :
    escapeQuotes (c :: cs) =
      if c = '"' then '"' :: '"' :: escapeQuotes cs else c :: escapeQuotes cs := rfl

lemma escapeQuotes_ne_nil (c : Char) (cs : List Char) :
    escapeQuotes (c :: cs) ≠ [] := by
  rw [escapeQuotes_cons]
  split <;> simp

lemma unescapeQuotes_cons_cons (c d : Char) (cs : List Char) :
    unescapeQuotes (c :: d :: cs) =
      if c = '"' ∧ d = '"' then '"' :: unescapeQuotes cs
      else c :: unescapeQuotes (d :: cs) := rfl

lemma pairedQuotes_cons_cons (c d : Char) (cs : List Char) :
    pairedQuotes (c :: d :: cs) =
      if c = '"' then decide (d = '"') && pairedQuotes cs
      else pairedQuotes (d :: cs) := rfl

lemma unescapeQuotes_escapeQuotes (l : List Char) :
    unescapeQuotes (escapeQuotes l) = l := by
  induction l with
  | nil => rfl
  | cons c cs ih =>
    by_cases hc : c = '"'
    · subst hc
      rw [escapeQuotes_cons, if_pos rfl, unescapeQuotes_cons_cons, if_pos ⟨rfl, rfl⟩, ih]
    · rw [escapeQuotes_cons, if_neg hc]
      cases hcs : escapeQuotes cs with
      | nil =>
        cases cs with
        | nil => rfl
        | cons d ds => exact absurd hcs (escapeQuotes_ne_nil d ds)
      | cons d ds =>
        rw [unescapeQuotes_cons_cons, if_neg (by simp [hc]), ← hcs, ih]

lemma pairedQuotes_escapeQuotes (l : List Char) :
    pairedQuotes (escapeQuotes l) = true := by
  induction l with
  | nil => rfl
  | cons c cs ih =>
    by_cases hc : c = '"'
    · subst hc
      rw [escapeQuotes_cons, if_pos rfl, pairedQuotes_cons_cons, if_pos rfl, ih]
      simp
    · rw [escapeQuotes_cons, if_neg hc]
      cases hcs : escapeQuotes cs with
      | nil => simp [pairedQuotes, hc]
      | cons d ds =>
        rw [pairedQuotes_cons_cons, if_neg hc, ← hcs, ih]

lemma data_quote_ident (ident : String) :
    (quote_ident ident).data = '"' :: (escapeQuotes ident.data ++ ['"']) := by
  simp [quote_ident, String.data_append]

lemma recoverIdent_quote_ident (ident : String) :
    recoverIdent (quote_ident ident) = some ident := by
  rw [recoverIdent, data_quote_ident]
  simp [List.getLast?_concat, List.dropLast_concat, unescapeQuotes_escapeQuotes]

lemma quote_ident_injective : Function.Injective quote_ident := by
  intro a b hab
  have := recoverIdent_quote_ident a
  rw [hab, recoverIdent_quote_ident b] at this
  exact (Option.some.injEq _ _ ▸ this).symm

lemma varchar_suffix_split :
    ("::varchar,'<NULL>')" : String) = "::varchar" ++ ",'<NULL>')" := by decide

lemma text_suffix_split :
    ("::text,'<NULL>')" : String) = "::text" ++ ",'<NULL>')" := by decide

lemma specNullSafeValue_varchar :
    (fun c => "coalesce(" ++ quote_ident c ++ "::varchar,'<NULL>')") =
      specNullSafeValue "::varchar" := by
  funext c
  rw [specNullSafeValue, varchar_suffix_split, ← String.append_assoc]

lemma specNullSafeValue_text :
    (fun c => "coalesce(" ++ quote_ident c ++ "::text,'<NULL>')") =
      specNullSafeValue "::text" := by
  funext c
  rw [specNullSafeValue, text_suffix_split, ← String.append_assoc]

lemma pyJoin_bar_eq_specDelimJoin (p : String) (ps : List String) :
    pyJoin " || '|' || " (p :: ps) = specDelimJoin (p :: ps) := by
  induction ps generalizing p with
  | nil => rfl
  | cons q qs ih =>
    show p ++ " || '|' || " ++ pyJoin " || '|' || " (q :: qs) =
      p ++ " || '|' || " ++ specDelimJoin (q :: qs)
    rw [ih]

/-! ## Claim theorems (string helpers) -/

/-- C1: for every ordered list of column names, `build_row_hash_expr`
returns the SQL expression that coalesces each column value to the fixed
NULL sentinel, joins the values with the bar delimiter in exactly the input
order, and hashes the result with md5; for the empty list it returns the
hash of the empty string rather than raising. This holds for both the
Redshift builder (cast `::varchar`) and the Postgres CLI builder
(cast `::text`). -/
theorem build_row_hash_expr_spec (cols : List String) :
    build_row_hash_expr cols = specRowHashExpr "::varchar" cols ∧
    build_row_hash_expr_pg cols = specRowHashExpr "::text" cols ∧
    build_row_hash_expr [] = "md5('')" ∧
    build_row_hash_expr_pg [] = "md5('')" := by
  refine ⟨?_, ?_, rfl, rfl⟩
  · cases cols with
    | nil => rfl
    | cons c cs =>
      rw [build_row_hash_expr, if_neg (by simp), specNullSafeValue_varchar, specRowHashExpr]
      simp only [List.map_cons]
      rw [pyJoin_bar_eq_specDelimJoin]
  · cases cols with
    | nil => rfl
    | cons c cs =>
      rw [build_row_hash_expr_pg, if_neg (by simp), specNullSafeValue_text, specRowHashExpr]
      simp only [List.map_cons]
      rw [pyJoin_bar_eq_specDelimJoin]

/-- C6: `quote_ident` wraps the identifier in double quotes with every
embedded double quote doubled; the original identifier is recoverable from
the quoted form (so the function is injective), and in the escaped interior
no isolated double quote occurs, hence no embedded quote can terminate the
quoted identifier early. -/
theorem quote_ident_spec (name : String) :
    recoverIdent (quote_ident name) = some name ∧
    pairedQuotes (escapeQuotes name.data) = true ∧
    Function.Injective quote_ident := by
  exact ⟨recoverIdent_quote_ident name, pairedQuotes_escapeQuotes name.data,
    quote_ident_injective⟩

/-- C7: `pct(n, 0) = 0` for every integer n (no division-by-zero fault), and
for every positive denominator `pct(n, d) = 100 * n / d` exactly (in the
rational model of the floating computation). -/
theorem pct_spec (n : ℤ) :
    pct n 0 = 0 ∧ ∀ d : ℤ, 0 < d → pct n d = 100 * (n : ℚ) / (d : ℚ) := by
  constructor
  · simp [pct]
  · intro d hd
    rw [pct, if_neg (by omega)]
    ring

/-- Witness for C7 at a concrete input: `pct 7 4 = 175`. -/
theorem pct_spec_witness :
    (0 : ℤ) < 4 ∧ pct 7 4 = 100 * (7 : ℚ) / (4 : ℚ) :=
  ⟨by decide, (pct_spec 7).2 4 (by decide)⟩

/-- C2: the schema diff computed in `run_diff` satisfies: `common` is a
sublist of `head_cols` (head order preserved) consisting exactly of the
members of `head_cols` present in `base_cols`; `common` with `only_in_head`
covers `head_cols` as a set; `common` with `only_in_base` covers
`base_cols` as a set; and `only_in_head` and `only_in_base` are
disjoint. -/
theorem schema_diff_spec (base_cols head_cols : List String) :
    (schemaCommon base_cols head_cols).Sublist head_cols ∧
    (∀ c, c ∈ schemaCommon base_cols head_cols ↔ c ∈ head_cols ∧ c ∈ base_cols) ∧
    (∀ c, (c ∈ schemaCommon base_cols head_cols ∨
           c ∈ schemaOnlyHead base_cols head_cols) ↔ c ∈ head_cols) ∧
    (∀ c, (c ∈ schemaCommon base_cols head_cols ∨
           c ∈ schemaOnlyBase base_cols head_cols) ↔ c ∈ base_cols) ∧
    (∀ c, c ∈ schemaOnlyHead base_cols head_cols →
          c ∉ schemaOnlyBase base_cols head_cols) := by
  refine ⟨List.filter_sublist head_cols, ?_, ?_, ?_, ?_⟩
  · intro c
    simp [schemaCommon, List.mem_filter]
  · intro c
    constructor
    · rintro (hc | hc) <;>
        simp only [schemaCommon, schemaOnlyHead, List.mem_filter] at hc <;>
        exact hc.1
    · intro hc
      by_cases hb : c ∈ base_cols
      · exact Or.inl (by simp [schemaCommon, List.mem_filter, hc, hb])
      · exact Or.inr (by simp [schemaOnlyHead, List.mem_filter, hc, hb])
  · intro c
    constructor
    · rintro (hc | hc)
      · simp only [schemaCommon, List.mem_filter] at hc
        simpa using hc.2
      · simp only [schemaOnlyBase, List.mem_filter] at hc
        exact hc.1
    · intro hc
      by_cases hh : c ∈ head_cols
      · exact Or.inl (by simp [schemaCommon, List.mem_filter, hc, hh])
      · exact Or.inr (by simp [schemaOnlyBase, List.mem_filter, hc, hh])
  · intro c hh hb
    simp only [schemaOnlyHead, List.mem_filter] at hh
    simp only [schemaOnlyBase, List.mem_filter] at hb
    exact absurd hb.1 (by simpa using hh.2)

/-- C3 counterexample: with key column `k` absent from the common columns,
the comparison phase does not fail fast: it proceeds to build and issue the
row-diff queries with that key column and returns a row-diff result. -/
theorem run_diff_no_key_validation_cex :
    ("k" ∉ schemaCommon ["id", "v"] ["id", "v"]) ∧
    (runDiffCompare id ["id", "v"] ["id", "v"] [] [] ["k"] 20).row_diff ≠ none ∧
    Query.rowDiffAdded ["k"] ∈
      (runDiffCompare id ["id", "v"] ["id", "v"] [] [] ["k"] 20).queries ∧
    Query.rowDiffChanged ["k"] ["id", "v"] ∈
      (runDiffCompare id ["id", "v"] ["id", "v"] [] [] ["k"] 20).queries := by
  decide

/-- C3 amended: `run_diff` performs no key-column validation: for every
input with a nonempty key list — including any whose key columns are not
among the common columns — the comparison phase builds and issues the
added/removed/changed queries with the supplied key columns and produces a
row-diff result rather than failing fast. -/
theorem run_diff_no_key_validation (digest : String → String)
    (base_cols head_cols : List String) (baseRows headRows : List Row)
    (key_cols : List String) (sample : ℤ) (hk : key_cols ≠ []) :
    (runDiffCompare digest base_cols head_cols baseRows headRows key_cols
      sample).row_diff ≠ none ∧
    Query.rowDiffAdded key_cols ∈
      (runDiffCompare digest base_cols head_cols baseRows headRows key_cols
        sample).queries ∧
    Query.rowDiffRemoved key_cols ∈
      (runDiffCompare digest base_cols head_cols baseRows headRows key_cols
        sample).queries ∧
    Query.rowDiffChanged key_cols
        (nonKeyCols (schemaCommon base_cols head_cols) key_cols) ∈
      (runDiffCompare digest base_cols head_cols baseRows headRows key_cols
        sample).queries := by
  rw [runDiffCompare, if_neg hk]
  refine ⟨by simp, ?_, ?_, ?_⟩ <;> simp

/-- Witness for the amended C3 at a concrete input with a key column not
among the common columns. -/
theorem run_diff_no_key_validation_witness :
    (["k"] : List String) ≠ [] ∧
    ((runDiffCompare id ["id"] ["id"] [] [] ["k"] 0).row_diff ≠ none ∧
     Query.rowDiffAdded ["k"] ∈
       (runDiffCompare id ["id"] ["id"] [] [] ["k"] 0).queries ∧
     Query.rowDiffRemoved ["k"] ∈
       (runDiffCompare id ["id"] ["id"] [] [] ["k"] 0).queries ∧
     Query.rowDiffChanged ["k"] (nonKeyCols (schemaCommon ["id"] ["id"]) ["k"]) ∈
       (runDiffCompare id ["id"] ["id"] [] [] ["k"] 0).queries) :=
  ⟨by decide,
   run_diff_no_key_validation id ["id"] ["id"] [] [] ["k"] 0 (by decide)⟩

lemma changedPairs_nonKey_nil (digest : String → String)
    (baseRows headRows : List Row) (keys : List String) :
    changedPairs digest baseRows headRows keys [] = [] := by
  unfold changedPairs
  have hnone : ∀ rb rh : Row,
      (if sqlKeyMatch keys rb rh ∧
          digest (hashInput [] rb) ≠ digest (hashInput [] rh)
       then some ((rb, rh) : Row × Row) else none) = none := by
    intro rb rh
    rw [if_neg]
    rintro ⟨-, hne⟩
    exact hne rfl
  simp [hnone]

/-- C5: whenever the common non-key column list is empty, the changed count
computed by the row diff is 0 (the hash input degenerates to the same empty
string on both sides, so no key-matching pair has differing hashes), and no
changed keys are sampled. -/
theorem changed_zero_of_no_nonkey_cols (digest : String → String)
    (base_cols head_cols : List String) (baseRows headRows : List Row)
    (key_cols : List String) (sample : ℤ) (hk : key_cols ≠ [])
    (hnk : nonKeyCols (schemaCommon base_cols head_cols) key_cols = []) :
    ∃ rd, (runDiffCompare digest base_cols head_cols baseRows headRows
        key_cols sample).row_diff = some rd ∧
      rd.changed = 0 ∧ rd.sample_keys = [] := by
  rw [runDiffCompare, if_neg hk]
  refine ⟨_, rfl, ?_, ?_⟩
  · simp only [hnk, changedCount, changedPairs_nonKey_nil, List.length_nil]
  · simp only [hnk, changedCount, changedPairs_nonKey_nil, List.length_nil]
    simp

/-- Witness for C5 at a concrete input where the only common column is the
key (and the key values differ between the sides). -/
theorem changed_zero_of_no_nonkey_cols_witness :
    (["id"] : List String) ≠ [] ∧
    nonKeyCols (schemaCommon ["id"] ["id"]) ["id"] = [] ∧
    (∃ rd, (runDiffCompare id ["id"] ["id"]
        [[("id", some "1")]] [[("id", some "2")]] ["id"] 5).row_diff = some rd ∧
      rd.changed = 0 ∧ rd.sample_keys = []) :=
  ⟨by decide, by decide,
   changed_zero_of_no_nonkey_cols id ["id"] ["id"]
     [[("id", some "1")]] [[("id", some "2")]] ["id"] 5 (by decide) (by decide)⟩

/-- C8: the sampling query is issued if and only if the changed count is
nonzero and the caller-supplied limit is positive; when the changed count is
0 or the limit is 0 no sampling query is issued and the sample list is
empty; and the sample never holds more than the limit many key tuples. -/
theorem sampling_short_circuit (digest : String → String)
    (base_cols head_cols : List String) (baseRows headRows : List Row)
    (key_cols : List String) (sample : ℤ) (hk : key_cols ≠ []) :
    ∃ rd, (runDiffCompare digest base_cols head_cols baseRows headRows
        key_cols sample).row_diff = some rd ∧
      ((rd.changed = 0 ∨ sample = 0) →
        hasSamplingQuery (runDiffCompare digest base_cols head_cols baseRows
          headRows key_cols sample).queries = false ∧ rd.sample_keys = []) ∧
      (hasSamplingQuery (runDiffCompare digest base_cols head_cols baseRows
          headRows key_cols sample).queries = true ↔
        rd.changed ≠ 0 ∧ 0 < sample) ∧
      rd.sample_keys.length ≤ sample.toNat := by
  rw [runDiffCompare, if_neg hk]
  by_cases hcond : changedCount digest baseRows headRows key_cols
      (nonKeyCols (schemaCommon base_cols head_cols) key_cols) ≠ 0 ∧ 0 < sample
  · refine ⟨_, rfl, ?_, ?_, ?_⟩
    · rintro (hzero | hzero)
      · exact absurd hzero hcond.1
      · exact absurd hcond.2 (by omega)
    · simp [hasSamplingQuery, hcond]
    · simp only [if_pos hcond]
      exact (List.length_take _ _).le.trans (min_le_left _ _)
  · refine ⟨_, rfl, ?_, ?_, ?_⟩
    · intro _
      simp [hasSamplingQuery, hcond]
    · simp [hasSamplingQuery, hcond]
    · simp [if_neg hcond]

/-- Witness for C8 at a concrete input with one changed row and a positive
limit: the sampling query is issued and one key tuple is returned. -/
theorem sampling_short_circuit_witness :
    (["id"] : List String) ≠ [] ∧
    (∃ rd, (runDiffCompare id ["id", "v"] ["id", "v"]
        [[("id", some "1"), ("v", some "a")]]
        [[("id", some "1"), ("v", some "b")]] ["id"] 5).row_diff = some rd ∧
      ((rd.changed = 0 ∨ (5 : ℤ) = 0) →
        hasSamplingQuery (runDiffCompare id ["id", "v"] ["id", "v"]
          [[("id", some "1"), ("v", some "a")]]
          [[("id", some "1"), ("v", some "b")]] ["id"] 5).queries = false ∧
        rd.sample_keys = []) ∧
      (hasSamplingQuery (runDiffCompare id ["id", "v"] ["id", "v"]
          [[("id", some "1"), ("v", some "a")]]
          [[("id", some "1"), ("v", some "b")]] ["id"] 5).queries = true ↔
        rd.changed ≠ 0 ∧ (0 : ℤ) < 5) ∧
      rd.sample_keys.length ≤ (5 : ℤ).toNat) :=
  ⟨by decide,
   sampling_short_circuit id ["id", "v"] ["id", "v"]
     [[("id", some "1"), ("v", some "a")]]
     [[("id", some "1"), ("v", some "b")]] ["id"] 5 (by decide)⟩

/-- C9: on every exit of `run_diff` (returned result or propagating error),
the worktree removals and the temp-dir removal are attempted, the schema
drop is attempted exactly when `keep_schemas` is false, and no failure of
any of those cleanup steps escapes the cleanup block: the body's outcome is
returned or re-raised unchanged, for every combination of cleanup-step
failures. -/
theorem cleanup_always_attempted {α : Type} (body : Outcome α)
    (keep_schemas fWtBase fWtHead fDrop : Bool) :
    (runDiffExit body keep_schemas fWtBase fWtHead fDrop).1 = body ∧
    CleanupAction.removeWtBase ∈
      (runDiffExit body keep_schemas fWtBase fWtHead fDrop).2 ∧
    CleanupAction.removeWtHead ∈
      (runDiffExit body keep_schemas fWtBase fWtHead fDrop).2 ∧
    CleanupAction.removeTmpDir ∈
      (runDiffExit body keep_schemas fWtBase fWtHead fDrop).2 ∧
    (CleanupAction.dropSchema ∈
      (runDiffExit body keep_schemas fWtBase fWtHead fDrop).2 ↔
      keep_schemas = false) := by
  cases keep_schemas <;> cases fWtBase <;> cases fWtHead <;> cases fDrop <;>
    simp [runDiffExit, cleanupSteps, execFinally]

/-- C10: `scalar` returns 0 when the query yields no row, an empty row, or
a NULL first column, and whenever every possible fetched first value is
non-negative (as for the count queries `run_diff` issues through it), the
returned integer is non-negative. -/
theorem scalar_spec :
    scalar none = 0 ∧
    scalar (some []) = 0 ∧
    (∀ tl, scalar (some (none :: tl)) = 0) ∧
    (∀ v tl, scalar (some (some v :: tl)) = v) ∧
    (∀ res, (∀ v tl, res = some (some v :: tl) → 0 ≤ v) → 0 ≤ scalar res) := by
  refine ⟨rfl, rfl, fun tl => rfl, fun v tl => rfl, ?_⟩
  intro res h
  match res with
  | none => exact le_refl 0
  | some [] => exact le_refl 0
  | some (none :: tl) => exact le_refl 0
  | some (some v :: tl) => exact h v tl rfl

/-- Witness for C10 at a concrete fetched count row. -/
theorem scalar_spec_witness : 0 ≤ scalar (some [some 7]) :=
  scalar_spec.2.2.2.2 (some [some 7]) (by
    intro v tl h
    simp only [Option.some.injEq, List.cons.injEq] at h
    omega)

/-! ## C4: schema-name derivation -/

/-- C4 counterexample: the two distinct (model, base revision, head
revision) triples `("m", "a_b", "c")` and `("m_a", "b", "c")` derive the
same disposable diff schema name, so the derivation is not injective. -/
theorem diff_schema_name_not_injective_cex :
    (("m", "a_b", "c") : String × String × String) ≠ ("m_a", "b", "c") ∧
    diffSchemaName "m" "a_b" "c" = diffSchemaName "m_a" "b" "c" := by
  exact ⟨by decide, by decide⟩

lemma squashRunsAux_cons (b : Bool) (c : Char) (cs : List Char) :
    squashRunsAux b (c :: cs) =
      if isIdentChar c then c :: squashRunsAux false cs
      else if b then squashRunsAux true cs
      else '_' :: squashRunsAux true cs := rfl

lemma squashRuns_eq_self (l : List Char) (h : ∀ c ∈ l, isIdentChar c = true) :
    squashRuns l = l := by
  unfold squashRuns
  induction l with
  | nil => rfl
  | cons c cs ih =>
    rw [squashRunsAux_cons, if_pos (h c (List.mem_cons_self c cs)),
      ih fun d hd => h d (List.mem_cons_of_mem c hd)]

lemma map_toLower_eq_self (l : List Char) (h : ∀ c ∈ l, c.toLower = c) :
    l.map Char.toLower = l := by
  induction l with
  | nil => rfl
  | cons c cs ih =>
    rw [List.map_cons, h c (List.mem_cons_self c cs),
      ih fun d hd => h d (List.mem_cons_of_mem c hd)]

lemma sanitize_ident_eq_self (s : String)
    (hid : ∀ c ∈ s.data, isIdentChar c = true)
    (hlow : ∀ c ∈ s.data, c.toLower = c)
    (hlen : s.length ≤ 60) :
    sanitize_ident s = s := by
  unfold sanitize_ident
  rw [squashRuns_eq_self s.data hid, map_toLower_eq_self s.data hlow,
    List.take_of_length_le hlen]

lemma append_underscore_cancel (m1 : List Char) :
    ∀ (m2 r1 r2 : List Char), '_' ∉ m1 → '_' ∉ m2 →
      m1 ++ '_' :: r1 = m2 ++ '_' :: r2 → m1 = m2 ∧ r1 = r2 := by
  induction m1 with
  | nil =>
    intro m2 r1 r2 _ h2 he
    cases m2 with
    | nil => simpa using he
    | cons d ds =>
      simp only [List.nil_append, List.cons_append, List.cons.injEq] at he
      obtain ⟨hd, -⟩ := he
      exact absurd (hd ▸ List.mem_cons_self d ds) h2
  | cons c cs ih =>
    intro m2 r1 r2 h1 h2 he
    cases m2 with
    | nil =>
      simp only [List.cons_append, List.nil_append, List.cons.injEq] at he
      obtain ⟨hc, -⟩ := he
      exact absurd (hc ▸ List.mem_cons_self c cs) h1
    | cons d ds =>
      simp only [List.cons_append, List.cons.injEq] at he
      obtain ⟨rfl, htl⟩ := he
      obtain ⟨hm, hr⟩ := ih ds r1 r2
        (fun hmem => h1 (List.mem_cons_of_mem c hmem))
        (fun hmem => h2 (List.mem_cons_of_mem c hmem)) htl
      exact ⟨by rw [hm], hr⟩

lemma underscore_data : ("_" : String).data = ['_'] := rfl

lemma joined_data (m b h : String) :
    (m ++ "_" ++ b ++ "_" ++ h).data =
      m.data ++ '_' :: (b.data ++ '_' :: h.data) := by
  simp [String.data_append, underscore_data]

lemma of_plainChar {c : Char} (h : plainChar c = true) :
    isIdentChar c = true ∧ c.toLower = c ∧ c ≠ '_' := by
  simp only [plainChar, Bool.and_eq_true, beq_iff_eq, bne_iff_ne] at h
  exact ⟨h.1.1, h.1.2, h.2⟩

lemma underscore_not_mem_of_plain (m : String)
    (hm : ∀ c ∈ m.data, plainChar c = true) : '_' ∉ m.data := by
  intro hmem
  exact absurd rfl (of_plainChar (hm _ hmem)).2.2

lemma joined_chars (m b h : String)
    (hm : ∀ c ∈ m.data, plainChar c = true)
    (hb : ∀ c ∈ b.data, plainChar c = true)
    (hh : ∀ c ∈ h.data, plainChar c = true) :
    ∀ c ∈ (m ++ "_" ++ b ++ "_" ++ h).data,
      isIdentChar c = true ∧ c.toLower = c := by
  intro c hc
  rw [joined_data] at hc
  simp only [List.mem_append, List.mem_cons] at hc
  rcases hc with hc | hc | hc | hc | hc
  · exact ⟨(of_plainChar (hm c hc)).1, (of_plainChar (hm c hc)).2.1⟩
  · exact hc ▸ ⟨by decide, by decide⟩
  · exact ⟨(of_plainChar (hb c hc)).1, (of_plainChar (hb c hc)).2.1⟩
  · exact hc ▸ ⟨by decide, by decide⟩
  · exact ⟨(of_plainChar (hh c hc)).1, (of_plainChar (hh c hc)).2.1⟩

/-- C4 amended: the schema-name derivation is deterministic in the triple
but injective only on a restricted domain: when the model name and both
revision identifiers consist solely of lowercase identifier characters
other than the underscore and the joined identifier stays within the
60-character truncation bound, distinct triples derive distinct schema
names. (Underscores in the inputs, case folding, sanitizer collapsing, or
truncation can all make distinct triples collide, as the counterexample
shows.) -/
theorem diff_schema_name_injective_on_plain
    (m1 b1 h1 m2 b2 h2 : String)
    (hpm1 : ∀ c ∈ m1.data, plainChar c = true)
    (hpb1 : ∀ c ∈ b1.data, plainChar c = true)
    (hph1 : ∀ c ∈ h1.data, plainChar c = true)
    (hpm2 : ∀ c ∈ m2.data, plainChar c = true)
    (hpb2 : ∀ c ∈ b2.data, plainChar c = true)
    (hph2 : ∀ c ∈ h2.data, plainChar c = true)
    (hl1 : (m1 ++ "_" ++ b1 ++ "_" ++ h1).length ≤ 60)
    (hl2 : (m2 ++ "_" ++ b2 ++ "_" ++ h2).length ≤ 60)
    (he : diffSchemaName m1 b1 h1 = diffSchemaName m2 b2 h2) :
    m1 = m2 ∧ b1 = b2 ∧ h1 = h2 := by
  unfold diffSchemaName at he
  have hsan : sanitize_ident (m1 ++ "_" ++ b1 ++ "_" ++ h1) =
      sanitize_ident (m2 ++ "_" ++ b2 ++ "_" ++ h2) := by
    have hd := congrArg String.data he
    simp only [String.data_append] at hd
    exact String.ext (List.append_cancel_left hd)
  rw [sanitize_ident_eq_self _ (fun c hc => (joined_chars m1 b1 h1 hpm1 hpb1 hph1 c hc).1)
        (fun c hc => (joined_chars m1 b1 h1 hpm1 hpb1 hph1 c hc).2) hl1,
      sanitize_ident_eq_self _ (fun c hc => (joined_chars m2 b2 h2 hpm2 hpb2 hph2 c hc).1)
        (fun c hc => (joined_chars m2 b2 h2 hpm2 hpb2 hph2 c hc).2) hl2] at hsan
  have hdata := congrArg String.data hsan
  rw [joined_data, joined_data] at hdata
  obtain ⟨hm, hrest⟩ := append_underscore_cancel m1.data m2.data _ _
    (underscore_not_mem_of_plain m1 hpm1) (underscore_not_mem_of_plain m2 hpm2) hdata
  obtain ⟨hb, hh⟩ := append_underscore_cancel b1.data b2.data _ _
    (underscore_not_mem_of_plain b1 hpb1) (underscore_not_mem_of_plain b2 hpb2) hrest
  exact ⟨String.ext hm, String.ext hb, String.ext hh⟩

/-- Witness for the amended C4 at concrete plain-alphabet inputs. -/
theorem diff_schema_name_injective_on_plain_witness :
    ("ma" : String) = "ma" ∧ ("b1" : String) = "b1" ∧ ("c2" : String) = "c2" :=
  diff_schema_name_injective_on_plain "ma" "b1" "c2" "ma" "b1" "c2"
    (by decide) (by decide) (by decide) (by decide) (by decide) (by decide)
    (by decide) (by decide) rfl

end DbtModelDiff
